import Mathlib

/-!
Formal model of the violation-collector plugin
(src/testify/plugins/violation_collector.py).

The plugin attributes sandbox (catbox) syscall violations to the test that
was running when they occurred.  A controller process announces the current
test over an OS pipe (`ViolationReporter.set_violator`), framed with the
sentinel `#END#`; the violation-handling path (`ViolationCollector`)
recovers the latest announcement (`get_violator` / `_get_last_violator`),
filters events attributed to the `UNDEFINED_VIOLATOR` sentinel
(`report_violation`), persists attributed events into an SQL store
(`ViolationStore`), aggregates them (`violation_counts`) and renders a
report (`ViolationReporter.report` / `get_syscall_count`).

The embedding below models byte strings as `List Char`, Python string
`split` as `pySplit`, the pipe as the list of bytes currently buffered,
exceptions as `Option`/explicit error constructors, and SQL rows as a
structure with exactly the columns of the `violations` table schema.
-/

set_option maxHeartbeats 1000000
set_option maxRecDepth 8000

/-- Python `str.split(sep)` for a non-empty separator, on character lists:
scan left to right, emit a segment at each non-overlapping occurrence of
`sep`.  `acc` is the reversed current segment.  The `fuel` argument makes
the recursion structural (each scanned occurrence consumes at least one
character, so `fuel = length` suffices); the `fuel = 0` fallback is
unreachable whenever `fuel` bounds the list length. -/
def pySplitAux (sep : List Char) : Nat → List Char → List Char → List (List Char)
  | _, acc, [] => [acc.reverse]
  | 0, acc, rest => [acc.reverse ++ rest]
  | fuel + 1, acc, c :: cs =>
    if sep ≠ [] ∧ sep.isPrefixOf (c :: cs) then
      acc.reverse :: pySplitAux sep fuel [] ((c :: cs).drop sep.length)
    else
      pySplitAux sep fuel (c :: acc) cs

/-- Python `str.split(sep)` on character lists; mirrors the semantics of
`data.split(self.VIOLATOR_DESC_END)` and `violator_line.split(',')` in
`ViolationCollector._get_last_violator` (violation_collector.py:222-225). -/
def pySplit (sep acc l : List Char) : List (List Char) :=
  pySplitAux sep l.length acc l

/-- `ViolationCollector.VIOLATOR_DESC_END = "#END#"` (violation_collector.py:188). -/
def VIOLATOR_DESC_END : List Char := ['#', 'E', 'N', 'D', '#']

/-- `ViolationCollector.MAX_VIOLATOR_LINE = 1024` (violation_collector.py:189). -/
def MAX_VIOLATOR_LINE : Nat := 1024

/-- `ViolationCollector.UNDEFINED_VIOLATOR` (violation_collector.py:195).
A violator recovered from the channel is `tuple(violator_line.split(','))`,
i.e. a tuple of strings of arbitrary arity, which we model as `List String`. -/
def UNDEFINED_VIOLATOR : List String :=
  ["UndefinedTestCase", "UndefinedMethod", "UndefinedPath"]

/-- The comma-joined violator line written by `ViolationReporter.set_violator`
(violation_collector.py:244): `','.join([test_case_name, method_name, module_path])`. -/
def violator_line (test_case_name method_name module_path : String) : List Char :=
  test_case_name.toList ++ (',' :: (method_name.toList ++ (',' :: module_path.toList)))

/-- `ViolationReporter.set_violator` (violation_collector.py:243-245): writes
the comma-joined violator line followed by `VIOLATOR_DESC_END` to the pipe.
The pipe is modelled as the list of bytes currently buffered; a write
appends to it. -/
def set_violator (buf : List Char) (test_case_name method_name module_path : String) :
    List Char :=
  buf ++ violator_line test_case_name method_name module_path ++ VIOLATOR_DESC_END

/-- A violator as published by the controller: (test class, method, module). -/
abbrev Violator := String × String × String

/-- The channel contents after publishing each violator of `vs` in order
(repeated `set_violator` calls on an initially empty pipe); closed form of
`publishSeq`. -/
def encodeSeq : List Violator → List Char
  | [] => []
  | v :: rest => violator_line v.1 v.2.1 v.2.2 ++ VIOLATOR_DESC_END ++ encodeSeq rest

/-- The channel contents after a sequence of `set_violator` publishes. -/
def publishSeq : List Char → List Violator → List Char
  | buf, [] => buf
  | buf, v :: rest => publishSeq (set_violator buf v.1 v.2.1 v.2.2) rest

/-- `ViolationCollector._get_last_violator` (violation_collector.py:222-225):
`violator_line = data.split(self.VIOLATOR_DESC_END)[-2]`;
`return tuple(violator_line.split(','))`.
Python `[-2]` is the second element of the reversed list and raises
`IndexError` when the split produced fewer than two segments; the raise is
modelled as `none`. -/
def get_last_violator (data : List Char) : Option (List String) :=
  match (pySplit VIOLATOR_DESC_END [] data).reverse with
  | _ :: seg :: _ => some ((pySplit [','] [] seg).map String.mk)
  | _ => none

/-- State of the collector's read side: bytes currently buffered in the pipe
and the cached `last_violator` (violation_collector.py:196,198). -/
structure ChanState where
  buf : List Char
  last_violator : List String
deriving DecidableEq

/-- `ViolationCollector.get_violator` (violation_collector.py:227-233) for a
single poll: if the pipe has no buffered data, `epoll.poll` reports no
events and the cached violator is returned; otherwise `os.read` consumes at
most `MAX_VIOLATOR_LINE` bytes and, if it read anything,
`_get_last_violator` is applied and its result cached.  A `none` first
component models the `IndexError` raised by `_get_last_violator`
propagating out of `get_violator` (the bytes are consumed, the cache is
left unchanged). -/
def get_violator (s : ChanState) : Option (List String) × ChanState :=
  if s.buf = [] then (some s.last_violator, s)
  else
    let readBytes := s.buf.take MAX_VIOLATOR_LINE
    let rest := s.buf.drop MAX_VIOLATOR_LINE
    if readBytes = [] then (some s.last_violator, ⟨rest, s.last_violator⟩)
    else
      match get_last_violator readBytes with
      | some v => (some v, ⟨rest, v⟩)
      | none => (none, ⟨rest, s.last_violator⟩)

/-- A field that round-trips through the channel framing: it contains neither
the field delimiter `,` nor the character `#` that opens the record
sentinel `#END#`. -/
def cleanField (s : String) : Prop := ',' ∉ s.toList ∧ '#' ∉ s.toList

instance (s : String) : Decidable (cleanField s) := by
  unfold cleanField; infer_instance

/-- All three violator fields are clean. -/
def cleanViolator (v : Violator) : Prop :=
  cleanField v.1 ∧ cleanField v.2.1 ∧ cleanField v.2.2

instance (v : Violator) : Decidable (cleanViolator v) := by
  unfold cleanViolator; infer_instance

theorem pySplitAux_nil (sep : List Char) (fuel : Nat) (acc : List Char) :
    pySplitAux sep fuel acc [] = [acc.reverse] := by
  cases fuel <;> rfl

theorem pySplitAux_fuel (sep : List Char) :
    ∀ (fuel : Nat) (acc l : List Char), l.length ≤ fuel →
      pySplitAux sep fuel acc l = pySplit sep acc l := by
  intro fuel
  induction fuel using Nat.strong_induction_on with
  | _ fuel ih =>
    intro acc l h
    match fuel, l with
    | fuel, [] => rw [pySplitAux_nil, pySplit, pySplitAux_nil]
    | 0, c :: cs => simp at h
    | f + 1, c :: cs =>
      have hcs : cs.length ≤ f := by simpa using h
      show pySplitAux sep (f + 1) acc (c :: cs) = pySplitAux sep (c :: cs).length acc (c :: cs)
      simp only [List.length_cons, pySplitAux]
      by_cases hc : sep ≠ [] ∧ sep.isPrefixOf (c :: cs)
      · rw [if_pos hc, if_pos hc]
        have hsep : 0 < sep.length := List.length_pos.mpr hc.1
        have hd : ((c :: cs).drop sep.length).length ≤ cs.length := by
          simp only [List.length_drop, List.length_cons]; omega
        rw [ih f (Nat.lt_succ_self f) [] _ (le_trans hd hcs),
          ih cs.length (Nat.lt_succ_of_le hcs) [] _ hd]
      · rw [if_neg hc, if_neg hc]
        rw [ih f (Nat.lt_succ_self f) (c :: acc) cs hcs,
          ih cs.length (Nat.lt_succ_of_le hcs) (c :: acc) cs (le_refl _)]

theorem pySplit_nil (sep acc : List Char) : pySplit sep acc [] = [acc.reverse] := rfl

theorem pySplit_step_pos (sep acc : List Char) (c : Char) (cs : List Char)
    (h1 : sep ≠ []) (h2 : sep.isPrefixOf (c :: cs)) :
    pySplit sep acc (c :: cs) =
      acc.reverse :: pySplit sep [] ((c :: cs).drop sep.length) := by
  show pySplitAux sep (c :: cs).length acc (c :: cs) = _
  simp only [List.length_cons, pySplitAux]
  rw [if_pos (And.intro h1 h2)]
  have hsep : 0 < sep.length := List.length_pos.mpr h1
  have hd : ((c :: cs).drop sep.length).length ≤ cs.length := by
    simp only [List.length_drop, List.length_cons]; omega
  rw [pySplitAux_fuel sep cs.length [] _ hd]

theorem pySplit_step_neg (sep acc : List Char) (c : Char) (cs : List Char)
    (h : ¬(sep ≠ [] ∧ sep.isPrefixOf (c :: cs))) :
    pySplit sep acc (c :: cs) = pySplit sep (c :: acc) cs := by
  show pySplitAux sep (c :: cs).length acc (c :: cs) = _
  simp only [List.length_cons, pySplitAux]
  rw [if_neg h]
  rw [pySplitAux_fuel sep cs.length (c :: acc) cs (le_refl _)]

theorem not_prefix_of_head_ne (sep : List Char) (a c : Char) (cs : List Char)
    (hhd : sep.head? = some a) (hne : a ≠ c) :
    ¬(sep ≠ [] ∧ sep.isPrefixOf (c :: cs)) := by
  intro hand
  cases sep with
  | nil => simp at hhd
  | cons s ss =>
    have hs : s = a := by simpa using hhd
    have hp := hand.2
    simp only [List.isPrefixOf, Bool.and_eq_true, beq_iff_eq] at hp
    exact hne (by rw [← hs]; exact hp.1)

/-- If the head character of the separator never occurs in `l`, the scan
finds no separator occurrence and returns a single segment. -/
theorem pySplit_no_sep (sep : List Char) (a : Char) (hhd : sep.head? = some a) :
    ∀ (acc l : List Char), a ∉ l → pySplit sep acc l = [acc.reverse ++ l] := by
  intro acc l
  induction l generalizing acc with
  | nil => intro _; simp [pySplit_nil]
  | cons c cs ih =>
    intro hmem
    have hac : a ≠ c := fun he => hmem (he ▸ List.mem_cons_self c cs)
    rw [pySplit_step_neg sep acc c cs (not_prefix_of_head_ne sep a c cs hhd hac)]
    rw [ih (c :: acc) (fun hm => hmem (List.mem_cons_of_mem c hm))]
    simp

/-- Scanning `l ++ sep ++ rest` where the separator head does not occur in
`l` emits `l` as one segment and continues after the separator. -/
theorem pySplit_sep_append (sep : List Char) (a : Char) (hhd : sep.head? = some a) :
    ∀ (acc l rest : List Char), a ∉ l →
      pySplit sep acc (l ++ sep ++ rest) = (acc.reverse ++ l) :: pySplit sep [] rest := by
  intro acc l
  induction l generalizing acc with
  | nil =>
    intro rest _
    simp only [List.nil_append, List.append_nil]
    cases sep with
    | nil => simp at hhd
    | cons s ss =>
      have h1 : (s :: ss : List Char) ≠ [] := by simp
      have h2 : (s :: ss).isPrefixOf ((s :: ss) ++ rest) :=
        List.isPrefixOf_iff_prefix.mpr (List.prefix_append _ _)
      have hshape : (s :: ss) ++ rest = s :: (ss ++ rest) := rfl
      rw [hshape] at h2
      rw [hshape, pySplit_step_pos (s :: ss) acc s (ss ++ rest) h1 h2]
      rw [← hshape, List.drop_left]
  | cons c cs ih =>
    intro rest hmem
    have hac : a ≠ c := fun he => hmem (he ▸ List.mem_cons_self c cs)
    have hshape : (c :: cs) ++ sep ++ rest = c :: (cs ++ sep ++ rest) := by simp
    rw [hshape, pySplit_step_neg sep acc c (cs ++ sep ++ rest)
      (not_prefix_of_head_ne sep a c (cs ++ sep ++ rest) hhd hac)]
    rw [ih (c :: acc) rest (fun hm => hmem (List.mem_cons_of_mem c hm))]
    simp

/-- The sentinel `#` does not occur in a clean violator's encoded line. -/
theorem hash_not_mem_violator_line (v : Violator) (h : cleanViolator v) :
    '#' ∉ violator_line v.1 v.2.1 v.2.2 := by
  obtain ⟨⟨_, h1⟩, ⟨_, h2⟩, ⟨_, h3⟩⟩ := h
  unfold violator_line
  intro hc
  rw [List.mem_append] at hc
  rcases hc with hc | hc
  · exact h1 hc
  rw [List.mem_cons] at hc
  rcases hc with hc | hc
  · exact absurd hc (by decide)
  rw [List.mem_append] at hc
  rcases hc with hc | hc
  · exact h2 hc
  rw [List.mem_cons] at hc
  rcases hc with hc | hc
  · exact absurd hc (by decide)
  exact h3 hc

/-- Splitting the channel bytes of a publish sequence on the sentinel yields
exactly the published lines (plus whatever the trailing bytes yield). -/
theorem pySplit_encodeSeq :
    ∀ (vs : List Violator), (∀ v ∈ vs, cleanViolator v) → ∀ (tail : List Char),
      pySplit VIOLATOR_DESC_END [] (encodeSeq vs ++ tail) =
        vs.map (fun v => violator_line v.1 v.2.1 v.2.2) ++
          pySplit VIOLATOR_DESC_END [] tail := by
  intro vs
  induction vs with
  | nil => intro _ tail; simp [encodeSeq]
  | cons v rest ih =>
    intro hclean tail
    have hshape : encodeSeq (v :: rest) ++ tail =
        violator_line v.1 v.2.1 v.2.2 ++ VIOLATOR_DESC_END ++ (encodeSeq rest ++ tail) := by
      simp [encodeSeq, List.append_assoc]
    rw [hshape,
      pySplit_sep_append VIOLATOR_DESC_END '#' rfl [] _ _
        (hash_not_mem_violator_line v (hclean v (List.mem_cons_self v rest))),
      ih (fun w hw => hclean w (List.mem_cons_of_mem v hw)) tail]
    simp

/-- Splitting a clean violator line on `,` recovers the three fields. -/
theorem pySplit_comma_line (v : Violator) (h : cleanViolator v) :
    pySplit [','] [] (violator_line v.1 v.2.1 v.2.2) =
      [v.1.toList, v.2.1.toList, v.2.2.toList] := by
  obtain ⟨⟨h1, _⟩, ⟨h2, _⟩, ⟨h3, _⟩⟩ := h
  have hshape : violator_line v.1 v.2.1 v.2.2 =
      v.1.toList ++ [','] ++ (v.2.1.toList ++ [','] ++ v.2.2.toList) := by
    simp [violator_line]
  rw [hshape, pySplit_sep_append [','] ',' rfl [] _ _ h1,
    pySplit_sep_append [','] ',' rfl [] _ _ h2,
    pySplit_no_sep [','] ',' rfl [] _ h3]
  simp

theorem publishSeq_eq_encodeSeq : ∀ (vs : List Violator) (buf : List Char),
    publishSeq buf vs = buf ++ encodeSeq vs := by
  intro vs
  induction vs with
  | nil => intro buf; simp [publishSeq, encodeSeq]
  | cons v rest ih =>
    intro buf
    simp [publishSeq, encodeSeq, set_violator, ih, List.append_assoc]

theorem encodeSeq_append (xs ys : List Violator) :
    encodeSeq (xs ++ ys) = encodeSeq xs ++ encodeSeq ys := by
  induction xs with
  | nil => simp [encodeSeq]
  | cons v rest ih => simp [encodeSeq, ih]

theorem encodeSeq_ne_nil (v : Violator) (rest : List Violator) :
    encodeSeq (v :: rest) ≠ [] := by
  simp [encodeSeq, VIOLATOR_DESC_END]

theorem mk_toList (s : String) : String.mk s.toList = s := rfl

/-- Decoding the channel contents of a non-empty publish sequence of clean
violators recovers the fields of the last published violator. -/
theorem get_last_violator_encodeSeq (init : List Violator) (v : Violator)
    (hclean : ∀ w ∈ init ++ [v], cleanViolator w) :
    get_last_violator (encodeSeq (init ++ [v])) = some [v.1, v.2.1, v.2.2] := by
  have hv : cleanViolator v := hclean v (by simp)
  have hsplit := pySplit_encodeSeq (init ++ [v]) hclean []
  rw [List.append_nil] at hsplit
  unfold get_last_violator
  rw [hsplit, pySplit_nil]
  simp only [List.map_append, List.map_cons, List.map_nil, List.reverse_append,
    List.reverse_cons, List.reverse_nil, List.nil_append, List.cons_append,
    List.append_assoc]
  rw [pySplit_comma_line v hv]
  simp [mk_toList]

theorem get_violator_fst_full_read (buf : List Char) (last0 : List String)
    (hne : buf ≠ []) (hlen : buf.length ≤ MAX_VIOLATOR_LINE) :
    (get_violator ⟨buf, last0⟩).fst = get_last_violator buf := by
  unfold get_violator
  dsimp only
  simp only [List.take_of_length_le hlen]
  rw [if_neg hne, if_neg hne]
  cases h : get_last_violator buf <;> simp [h]

/-- C1 (amended): if every published violator has clean fields (no `,` and
no `#`) and the total encoded length of the publish sequence is at most
`MAX_VIOLATOR_LINE` (1024) bytes, then a single `get_violator` call after
the channel has quiesced returns exactly the most recently published
violator; intermediate values are not observable. -/
theorem c1_get_violator_returns_last_publish (init : List Violator) (v : Violator)
    (last0 : List String)
    (hclean : ∀ w ∈ init ++ [v], cleanViolator w)
    (hlen : (publishSeq [] (init ++ [v])).length ≤ MAX_VIOLATOR_LINE) :
    (get_violator ⟨publishSeq [] (init ++ [v]), last0⟩).fst = some [v.1, v.2.1, v.2.2] := by
  rw [publishSeq_eq_encodeSeq, List.nil_append] at hlen ⊢
  have hne : encodeSeq (init ++ [v]) ≠ [] := by
    rw [encodeSeq_append]
    intro hcon
    exact encodeSeq_ne_nil v [] ((List.append_eq_nil.mp hcon).2)
  rw [get_violator_fst_full_read _ last0 hne hlen,
    get_last_violator_encodeSeq init v hclean]

/-- C1 witness: a concrete two-publish sequence where `get_violator`
returns the second (most recent) violator. -/
theorem c1_witness :
    (get_violator ⟨publishSeq [] [("TestA", "test_x", "mod_a"), ("TestB", "test_y", "mod_b")],
        UNDEFINED_VIOLATOR⟩).fst = some ["TestB", "test_y", "mod_b"] :=
  c1_get_violator_returns_last_publish [("TestA", "test_x", "mod_a")]
    ("TestB", "test_y", "mod_b") UNDEFINED_VIOLATOR (by decide) (by decide)

/-- The first record of the C1 counterexample: a violator whose test-class
name is 1020 characters long, so its encoded line is exactly 1024 bytes and
the sentinel of its record lies beyond the 1024-byte read window. -/
def hugeViolator : Violator :=
  (String.mk (List.replicate 1020 'x'), String.mk ['y'], String.mk ['z'])

/-- C1 counterexample: after publishing `hugeViolator` and then
`("Q","Q","Q")`, a single `get_violator` call does not return the most
recently published violator `("Q","Q","Q")` — the 1024-byte read window
contains no complete sentinel-terminated record, so `_get_last_violator`
raises instead (modelled as `none`). -/
theorem c1_counterexample :
    (get_violator ⟨publishSeq [] [hugeViolator, ("Q", "Q", "Q")], UNDEFINED_VIOLATOR⟩).fst ≠
      some ["Q", "Q", "Q"] := by
  rw [publishSeq_eq_encodeSeq, List.nil_append]
  have hline : violator_line hugeViolator.1 hugeViolator.2.1 hugeViolator.2.2 =
      List.replicate 1020 'x' ++ ',' :: 'y' :: ',' :: 'z' :: [] := by
    simp [violator_line, hugeViolator, String.toList]
  have hlen : (violator_line hugeViolator.1 hugeViolator.2.1 hugeViolator.2.2).length = 1024 := by
    rw [hline]
    simp [List.length_append, List.length_replicate]
  have hbuf : encodeSeq [hugeViolator, ("Q", "Q", "Q")] =
      violator_line hugeViolator.1 hugeViolator.2.1 hugeViolator.2.2 ++
        (VIOLATOR_DESC_END ++ encodeSeq [("Q", "Q", "Q")]) := by
    simp [encodeSeq, List.append_assoc]
  have hne : encodeSeq [hugeViolator, ("Q", "Q", "Q")] ≠ [] := encodeSeq_ne_nil _ _
  have htake : (encodeSeq [hugeViolator, ("Q", "Q", "Q")]).take MAX_VIOLATOR_LINE =
      violator_line hugeViolator.1 hugeViolator.2.1 hugeViolator.2.2 := by
    rw [hbuf]
    exact List.take_left' hlen
  have hnomem : '#' ∉ violator_line hugeViolator.1 hugeViolator.2.1 hugeViolator.2.2 := by
    rw [hline]
    simp only [List.mem_append, List.mem_cons, List.mem_replicate, List.not_mem_nil]
    decide
  have hglv : get_last_violator
      ((encodeSeq [hugeViolator, ("Q", "Q", "Q")]).take MAX_VIOLATOR_LINE) = none := by
    rw [htake]
    unfold get_last_violator
    rw [pySplit_no_sep VIOLATOR_DESC_END '#' rfl [] _ hnomem]
    rfl
  unfold get_violator
  dsimp only
  rw [if_neg hne]
  rw [if_neg (show ¬(encodeSeq [hugeViolator, ("Q", "Q", "Q")]).take MAX_VIOLATOR_LINE = []
    by rw [htake]; intro hcon; rw [hcon] at hlen; simp at hlen)]
  rw [hglv]
  simp

/-- A value stored in a Python dict forwarded to the store: a string or a
number (`time.time()` is modelled with natural-number ticks). -/
inductive Val where
  | s (v : String)
  | n (v : Nat)
deriving DecidableEq

/-- Build metadata (violation_collector.py:136-140): parsed from the
`--build-info` JSON and cleaned by `cleandict` to the keys branch,
revision and submitstamp. -/
structure BuildInfo where
  branch : String
  revision : String
  submitstamp : Nat
deriving DecidableEq

/-- The option fields consumed by `ViolationStore.__init__`
(violation_collector.py:133-149): `violation_dburl` (CLI default
`"sqlite:///violations.sqlite"`; the empty string models a falsy value),
`violation_dbconfig` (`some u` models a config file whose contents resolve
to the connection URL `u`, `none` models the option being absent) and
`build_info` (modelled as already JSON-parsed). -/
structure Options where
  violation_dburl : String
  violation_dbconfig : Option String
  build_info : Option BuildInfo
deriving DecidableEq

/-- `is_sqlite_filepath` (violation_collector.py:32-34):
`dburl.startswith("sqlite:///")`. -/
def is_sqlite_filepath (dburl : String) : Bool :=
  "sqlite:///".toList.isPrefixOf dburl.toList

/-- Python `s.find(pat) > -1` for a non-empty pattern: `pat` occurs as a
contiguous infix of the scanned list. -/
def hasInfix (pat : List Char) : List Char → Bool
  | [] => pat.isEmpty
  | c :: cs => pat.isPrefixOf (c :: cs) || hasInfix pat cs

/-- Outcome of `ViolationStore.__init__` (violation_collector.py:133-149).
`configError` models the `TypeError` from `open(None)` when neither a URL
nor a config file is available; `memoryError` models the `ValueError`
raised for a `sqlite:///...:memory:...` URL.  Tables are created only by
`connect()` (`metadata.create_all`, violation_collector.py:151-157), which
`__init__` reaches only on the non-error path, so an `ok` result carries
`tablesCreated = true` while an error result means no connection was made
and no tables were created. -/
inductive StoreInitResult where
  | configError
  | memoryError
  | ok (dburl : String) (info : BuildInfo) (tablesCreated : Bool)
deriving DecidableEq

/-- `ViolationStore.__init__` (violation_collector.py:133-149).
`self.dburl = self.options.violation_dburl or ...`: Python `or` returns
its left operand whenever that operand is truthy (a non-empty string), so
the config file is consulted only when the URL option is falsy.  `now` is
the wall-clock time used for the default `submitstamp`; the deletion of a
pre-existing sqlite file (os.unlink) has no effect on the modelled state. -/
def ViolationStore_init (o : Options) (now : Nat) : StoreInitResult :=
  match (if o.violation_dburl ≠ "" then some o.violation_dburl else o.violation_dbconfig) with
  | none => .configError
  | some dburl =>
    let info : BuildInfo :=
      match o.build_info with
      | some bi => bi
      | none => ⟨"", "", now⟩
    if is_sqlite_filepath dburl && hasInfix ":memory:".toList dburl.toList then
      .memoryError
    else
      .ok dburl info true

/-- C6 counterexample: supplying both a store URL and a store config file is
not rejected — `ViolationStore.__init__` succeeds, resolves the store to
the URL and never consults the config file, so no "conflicting store
configuration" error is raised. -/
theorem c6_counterexample :
    ViolationStore_init ⟨"sqlite:///violations.sqlite", some "mysql://host/db", none⟩ 0 =
      StoreInitResult.ok "sqlite:///violations.sqlite" ⟨"", "", 0⟩ true := by
  decide

/-- C6 (amended): supplying both the store-location URL and the store config
file is not a fatal configuration error; the URL takes precedence and the
config file is never consulted — construction behaves exactly as if the
config option were absent. -/
theorem c6_url_takes_precedence (o : Options) (now : Nat)
    (h : o.violation_dburl ≠ "") :
    ViolationStore_init o now =
      ViolationStore_init ⟨o.violation_dburl, none, o.build_info⟩ now := by
  unfold ViolationStore_init
  dsimp only
  simp only [if_pos h]

/-- C6 witness: with both inputs supplied, construction equals construction
from the URL alone. -/
theorem c6_witness :
    ViolationStore_init ⟨"sqlite:///violations.sqlite", some "mysql://host/db", none⟩ 0 =
      ViolationStore_init ⟨"sqlite:///violations.sqlite", none, none⟩ 0 :=
  c6_url_takes_precedence ⟨"sqlite:///violations.sqlite", some "mysql://host/db", none⟩ 0
    (by decide)

/-- An SQLAlchemy sqlite URL that denotes an ephemeral in-memory database:
the empty-path form `sqlite://`, or a sqlite URL naming the `:memory:`
pseudo-path (SQLAlchemy documents both forms as in-memory). -/
def isEphemeralDescriptor (url : String) : Bool :=
  url == "sqlite://" ||
    ("sqlite://".toList.isPrefixOf url.toList && hasInfix ":memory:".toList url.toList)

/-- C7 counterexample: `sqlite://` is an ephemeral in-memory descriptor,
yet constructing the store on it succeeds, connects and creates the
tables: the guard in `__init__` only rejects URLs that begin with
`sqlite:///` (three slashes) and contain `:memory:`, and
`is_sqlite_filepath "sqlite://"` is false. -/
theorem c7_counterexample :
    isEphemeralDescriptor "sqlite://" = true ∧
      ViolationStore_init ⟨"sqlite://", none, none⟩ 0 =
        StoreInitResult.ok "sqlite://" ⟨"", "", 0⟩ true := by
  decide

/-- C7 (amended): for the in-memory descriptors that the code recognises —
URLs starting with `sqlite:///` and containing `:memory:` — construction
raises `ValueError` before `connect()` is reached, so no connection is
made and no tables are created; the in-memory form `sqlite://` escapes the
guard. -/
theorem c7_memory_url_rejected (o : Options) (now : Nat)
    (h1 : is_sqlite_filepath o.violation_dburl = true)
    (h2 : hasInfix ":memory:".toList o.violation_dburl.toList = true) :
    ViolationStore_init o now = StoreInitResult.memoryError := by
  have hne : o.violation_dburl ≠ "" := by
    intro hcon
    rw [hcon] at h1
    exact absurd h1 (by decide)
  unfold ViolationStore_init
  dsimp only
  rw [if_pos hne]
  dsimp only
  rw [h1, h2]
  rfl

/-- C7 witness: the canonical in-memory URL `sqlite:///:memory:` is
rejected at construction. -/
theorem c7_witness :
    ViolationStore_init ⟨"sqlite:///:memory:", none, none⟩ 0 =
      StoreInitResult.memoryError :=
  c7_memory_url_rejected ⟨"sqlite:///:memory:", none, none⟩ 0 (by decide) (by decide)

/-- The columns of the `violations` table (violation_collector.py:106-117). -/
def violations_columns : List String :=
  ["id", "branch", "revision", "submitstamp", "module", "class_name",
   "method_name", "syscall", "syscall_args"]

/-- The dict built by `ViolationCollector.report_violation`
(violation_collector.py:213-220) and forwarded to
`ViolationStore.add_violation`; `start_time` carries `time.time()` at the
moment of forwarding. -/
def violation_record (test_case method module_path syscall resolved_path : String)
    (now : Nat) : List (String × Val) :=
  [("module", .s module_path), ("class_name", .s test_case),
   ("method_name", .s method), ("syscall", .s syscall),
   ("syscall_args", .s resolved_path), ("start_time", .n now)]

/-- Outcome of `ViolationCollector.report_violation`
(violation_collector.py:202-220): the event is discarded when the violator
is `UNDEFINED_VIOLATOR`; unpacking a violator tuple whose arity is not 3
raises `ValueError`; otherwise the record dict is forwarded to
`ViolationStore.add_violation`. -/
inductive ReportResult where
  | ignored
  | unpackError
  | forwarded (record : List (String × Val))
deriving DecidableEq

/-- `ViolationCollector.report_violation` (violation_collector.py:202-220). -/
def report_violation (violator : List String) (violation : String × String)
    (now : Nat) : ReportResult :=
  if violator = UNDEFINED_VIOLATOR then .ignored
  else
    match violator with
    | [test_case, method, module_path] =>
        .forwarded (violation_record test_case method module_path violation.1 violation.2 now)
    | _ => .unpackError

/-- `ViolationStore.add_violation` (violation_collector.py:166-171):
`violation.update(self.info)` merges the build metadata into the dict
before the insert; the record and info keys are disjoint, so appending the
info pairs models `dict.update` exactly. -/
def add_violation_dict (record : List (String × Val)) (info : BuildInfo) :
    List (String × Val) :=
  record ++ [("branch", .s info.branch), ("revision", .s info.revision),
    ("submitstamp", .n info.submitstamp)]

def lookupStr (record : List (String × Val)) (k : String) : String :=
  match record.lookup k with
  | some (.s v) => v
  | _ => ""

def lookupNat (record : List (String × Val)) (k : String) : Nat :=
  match record.lookup k with
  | some (.n v) => v
  | _ => 0

/-- A persisted row of the `violations` table (violation_collector.py:
106-117): exactly the schema's data columns (the autoincrement id is
irrelevant to the claims and omitted). -/
structure ViolationRow where
  branch : String
  revision : String
  submitstamp : Nat
  module : String
  class_name : String
  method_name : String
  syscall : String
  syscall_args : String
deriving DecidableEq

/-- The row stored by `conn.execute(self.Violations.insert(), violation)`:
each schema column takes the dict value of its own name; a dict key that
names no column (such as `start_time`) has no column to land in and is not
persisted. -/
def persistRow (record : List (String × Val)) : ViolationRow :=
  ⟨lookupStr record "branch", lookupStr record "revision",
   lookupNat record "submitstamp", lookupStr record "module",
   lookupStr record "class_name", lookupStr record "method_name",
   lookupStr record "syscall", lookupStr record "syscall_args"⟩

/-- C2 counterexample: two forwardings of the same violation at different
wall-clock times (5 and 99) persist identical rows — the persisted record
does not contain the timestamp taken at the moment `report_violation`
forwards it. -/
theorem c2_counterexample :
    report_violation ["TestA", "test_x", "mod_a"] ("open", "/etc/passwd") 5 =
        ReportResult.forwarded
          (violation_record "TestA" "test_x" "mod_a" "open" "/etc/passwd" 5) ∧
    persistRow (add_violation_dict
        (violation_record "TestA" "test_x" "mod_a" "open" "/etc/passwd" 5) ⟨"b", "r", 42⟩) =
      persistRow (add_violation_dict
        (violation_record "TestA" "test_x" "mod_a" "open" "/etc/passwd" 99) ⟨"b", "r", 42⟩) := by
  decide

/-- C2 (amended): the record forwarded by `report_violation` does contain a
`start_time` timestamp equal to the forwarding time, but the `violations`
table has no such column: the persisted row consists exactly of branch,
revision and submitstamp from the build metadata fixed at store
construction plus module, class_name, method_name, syscall and
syscall_args from the violator and violation — it is independent of the
forwarding-time timestamp. -/
theorem c2_no_event_timestamp_persisted
    (test_case method module_path syscall resolved_path : String) (now : Nat)
    (info : BuildInfo)
    (hne : [test_case, method, module_path] ≠ UNDEFINED_VIOLATOR) :
    report_violation [test_case, method, module_path] (syscall, resolved_path) now =
        ReportResult.forwarded
          (violation_record test_case method module_path syscall resolved_path now) ∧
    ("start_time", Val.n now) ∈
        violation_record test_case method module_path syscall resolved_path now ∧
    "start_time" ∉ violations_columns ∧
    persistRow (add_violation_dict
        (violation_record test_case method module_path syscall resolved_path now) info) =
      ⟨info.branch, info.revision, info.submitstamp, module_path, test_case, method,
        syscall, resolved_path⟩ := by
  refine ⟨?_, ?_, ?_, ?_⟩
  · unfold report_violation
    rw [if_neg hne]
  · simp [violation_record]
  · decide
  · simp [persistRow, add_violation_dict, violation_record, lookupStr, lookupNat,
      List.lookup]

/-- C2 witness: a concrete forwarded record persists as exactly the
schema-column row, with no forwarding-time timestamp. -/
theorem c2_witness :
    persistRow (add_violation_dict
        (violation_record "TestA" "test_x" "mod_a" "open" "/e" 7) ⟨"b", "r", 3⟩) =
      ⟨"b", "r", 3, "mod_a", "TestA", "test_x", "open", "/e"⟩ :=
  (c2_no_event_timestamp_persisted "TestA" "test_x" "mod_a" "open" "/e" 7 ⟨"b", "r", 3⟩
    (by decide)).2.2.2

/-- C4: a violation event reported while the current violator is the
`UNDEFINED_VIOLATOR` sentinel is discarded by `report_violation` before
anything is forwarded to the store — so no violations row is ever
attributed to `UNDEFINED_VIOLATOR` — and the collector's cache defaults to
`UNDEFINED_VIOLATOR` when nothing was ever published (empty channel). -/
theorem c4_undefined_violator_discarded (violation : String × String) (now : Nat) :
    report_violation UNDEFINED_VIOLATOR violation now = ReportResult.ignored ∧
    (get_violator ⟨[], UNDEFINED_VIOLATOR⟩).fst = some UNDEFINED_VIOLATOR := by
  constructor
  · unfold report_violation
    rw [if_pos rfl]
  · rfl

/-- The grouping key used by `violation_counts`:
(class_name, method_name, syscall). -/
def rowKey (r : ViolationRow) : String × String × String :=
  (r.class_name, r.method_name, r.syscall)

/-- A result row of `violation_counts` (violation_collector.py:183):
(class_name, method_name, syscall, count). -/
abbrev CountGroup := String × String × String × Nat

def groupKey (g : CountGroup) : String × String × String := (g.1, g.2.1, g.2.2.1)

def groupSyscall (g : CountGroup) : String := g.2.2.1

def groupCount (g : CountGroup) : Nat := g.2.2.2

/-- The `ORDER BY count DESC` comparison of `violation_counts`
(violation_collector.py:179). -/
def countDesc (a b : CountGroup) : Prop := groupCount b ≤ groupCount a

instance : DecidableRel countDesc := fun _ _ => Nat.decLe _ _

instance : IsTotal CountGroup countDesc := ⟨fun _ _ => Nat.le_total _ _⟩

instance : IsTrans CountGroup countDesc := ⟨fun _ _ _ hab hbc => le_trans hbc hab⟩

/-- `ViolationStore.violation_counts` (violation_collector.py:173-184):
relational semantics of the query `SELECT class_name, method_name,
syscall, count(syscall) AS count FROM violations GROUP BY class_name,
method_name, syscall ORDER BY count DESC` over the stored rows: one group
per distinct key (first-occurrence order), counted over all rows with
that key, then sorted by count descending (a deterministic backend
ordering; the stable sort keeps tied groups in scan order). -/
def violation_counts (rows : List ViolationRow) : List CountGroup :=
  let keys := (rows.map rowKey).dedup
  let groups := keys.map fun k =>
    (k.1, k.2.1, k.2.2, rows.countP (fun r => rowKey r == k))
  List.insertionSort countDesc groups

/-- C5: `violation_counts` returns exactly one group per distinct
(class_name, method_name, syscall) triple present among the stored
violations, each group's count equals the number of stored rows with that
triple, and the groups are ordered by count descending. -/
theorem c5_violation_counts_groups_and_order (rows : List ViolationRow) :
    ((violation_counts rows).map groupKey).Nodup ∧
    (∀ k, k ∈ (violation_counts rows).map groupKey ↔ k ∈ rows.map rowKey) ∧
    (∀ g ∈ violation_counts rows,
      groupCount g = rows.countP (fun r => rowKey r == groupKey g)) ∧
    List.Sorted countDesc (violation_counts rows) := by
  have hperm : List.Perm (violation_counts rows)
      ((rows.map rowKey).dedup.map fun k =>
        (k.1, k.2.1, k.2.2, rows.countP (fun r => rowKey r == k))) :=
    List.perm_insertionSort countDesc _
  have hkeymap : (((rows.map rowKey).dedup.map fun k =>
      (k.1, k.2.1, k.2.2, rows.countP (fun r => rowKey r == k))).map groupKey) =
      (rows.map rowKey).dedup := by
    rw [List.map_map]
    exact List.map_id _
  refine ⟨?_, ?_, ?_, ?_⟩
  · rw [(hperm.map groupKey).nodup_iff, hkeymap]
    exact List.nodup_dedup _
  · intro k
    rw [(hperm.map groupKey).mem_iff, hkeymap, List.mem_dedup]
  · intro g hg
    rw [hperm.mem_iff, List.mem_map] at hg
    obtain ⟨k, _, hk⟩ := hg
    rw [← hk]
    rfl
  · exact List.sorted_insertionSort countDesc _

def exRows : List ViolationRow :=
  [⟨"b", "r", 1, "m", "TestA", "test_x", "open", "/a"⟩,
   ⟨"b", "r", 1, "m", "TestA", "test_x", "open", "/b"⟩,
   ⟨"b", "r", 1, "m", "TestB", "test_y", "read", "/c"⟩]

/-- C5 witness: on a concrete store the group ("TestA","test_x","open")
has count 2, the number of matching rows. -/
theorem c5_witness :
    groupCount ("TestA", "test_x", "open", 2) =
      exRows.countP (fun r => rowKey r == groupKey ("TestA", "test_x", "open", 2)) :=
  (c5_violation_counts_groups_and_order exRows).2.2.1 ("TestA", "test_x", "open", 2)
    (by decide)

/-- The ascending-by-syscall comparison of
`sorted(violations, key=operator.itemgetter(2))` (violation_collector.py:286). -/
def syscallLe (a b : CountGroup) : Prop := groupSyscall a ≤ groupSyscall b

instance : DecidableRel syscallLe := fun a b =>
  decidable_of_iff ((groupSyscall a).toList ≤ (groupSyscall b).toList)
    String.le_iff_toList_le.symm

instance : IsTotal CountGroup syscallLe := ⟨fun _ _ => le_total _ _⟩

instance : IsTrans CountGroup syscallLe := ⟨fun _ _ _ hab hbc => le_trans hab hbc⟩

/-- The ascending-by-count comparison of
`sorted(syscall_violations, key=operator.itemgetter(1))`
(violation_collector.py:289). -/
def countAscPair (a b : String × Nat) : Prop := a.2 ≤ b.2

instance : DecidableRel countAscPair := fun _ _ => Nat.decLe _ _

instance : IsTotal (String × Nat) countAscPair := ⟨fun _ _ => Nat.le_total _ _⟩

instance : IsTrans (String × Nat) countAscPair := ⟨fun _ _ _ hab hbc => le_trans hab hbc⟩

/-- `itertools.groupby(..., operator.itemgetter(2))` combined with
`sum(violator[3] for violator in violators)`
(violation_collector.py:286-288): scan the list accumulating the summed
count `n` of the current run of consecutive records with syscall `k`,
emitting one `(syscall, summed count)` pair when the run ends. -/
def groupRuns : String → Nat → List CountGroup → List (String × Nat)
  | k, n, [] => [(k, n)]
  | k, n, g :: rest =>
    if groupSyscall g = k then groupRuns k (n + groupCount g) rest
    else (k, n) :: groupRuns (groupSyscall g) (groupCount g) rest

/-- The consecutive-run summary of a list of count groups: one
`(syscall, summed count)` pair per maximal run of equal consecutive
syscalls, as produced by `itertools.groupby` plus `sum`. -/
def syscallRunCounts : List CountGroup → List (String × Nat)
  | [] => []
  | g :: rest => groupRuns (groupSyscall g) (groupCount g) rest

theorem groupRuns_spec :
    ∀ (l : List CountGroup), List.Sorted syscallLe l →
      ∀ (k : String) (n : Nat), (∀ g ∈ l, k ≤ groupSyscall g) →
        ((groupRuns k n l).map Prod.fst).Nodup ∧
        (∀ s, s ∈ (groupRuns k n l).map Prod.fst ↔ s = k ∨ s ∈ l.map groupSyscall) ∧
        (∀ p ∈ groupRuns k n l,
          p.2 = (if p.1 = k then n else 0) +
            ((l.filter (fun g => groupSyscall g == p.1)).map groupCount).sum) := by
  intro l
  induction l with
  | nil =>
    intro _ k n _
    refine ⟨by simp [groupRuns], fun s => by simp [groupRuns], ?_⟩
    intro p hp
    simp only [groupRuns, List.mem_singleton] at hp
    subst hp
    simp
  | cons g rest ih =>
    intro hs k n hk
    have hs' : List.Sorted syscallLe rest := (List.sorted_cons.mp hs).2
    have hhd : ∀ b ∈ rest, syscallLe g b := (List.sorted_cons.mp hs).1
    by_cases hgk : groupSyscall g = k
    · have hk' : ∀ x ∈ rest, k ≤ groupSyscall x := fun x hx =>
        hk x (List.mem_cons_of_mem g hx)
      have IH := ih hs' k (n + groupCount g) hk'
      simp only [groupRuns, if_pos hgk]
      refine ⟨IH.1, ?_, ?_⟩
      · intro s
        rw [IH.2.1 s, List.map_cons, List.mem_cons, hgk]
        tauto
      · intro p hp
        have hcount := IH.2.2 p hp
        rw [hcount, List.filter_cons]
        by_cases hpk : p.1 = k
        · have hbeq : (groupSyscall g == p.1) = true := by
            rw [hgk, hpk, beq_self_eq_true]
          rw [hbeq]
          simp only [if_pos hpk, if_true, List.map_cons, List.sum_cons]
          omega
        · have hbeq : (groupSyscall g == p.1) = false := by
            rw [hgk]
            exact beq_eq_false_iff_ne.mpr (fun he => hpk he.symm)
          simp [hbeq, hpk]
    · have hk2 : ∀ x ∈ rest, groupSyscall g ≤ groupSyscall x := fun x hx => hhd x hx
      have IH := ih hs' (groupSyscall g) (groupCount g) hk2
      have hkg : k < groupSyscall g :=
        lt_of_le_of_ne (hk g (List.mem_cons_self g rest)) (fun he => hgk he.symm)
      have hklt : ∀ s ∈ (groupRuns (groupSyscall g) (groupCount g) rest).map Prod.fst,
          k < s := by
        intro s hsm
        rw [IH.2.1 s] at hsm
        rcases hsm with hsm | hsm
        · rw [hsm]; exact hkg
        · rw [List.mem_map] at hsm
          obtain ⟨x, hx, hxs⟩ := hsm
          exact lt_of_lt_of_le hkg (hxs ▸ hk2 x hx)
      simp only [groupRuns, if_neg hgk]
      refine ⟨?_, ?_, ?_⟩
      · rw [List.map_cons, List.nodup_cons]
        exact ⟨fun hmem => absurd rfl (ne_of_gt (hklt k hmem)), IH.1⟩
      · intro s
        rw [List.map_cons, List.mem_cons, IH.2.1 s, List.map_cons, List.mem_cons]
      · intro p hp
        rw [List.mem_cons] at hp
        rcases hp with hp | hp
        · subst hp
          have hfil : (g :: rest).filter (fun x => groupSyscall x == k) = [] := by
            rw [List.filter_eq_nil_iff]
            intro x hx
            rw [List.mem_cons] at hx
            rcases hx with hx | hx
            · subst hx
              simpa using hgk
            · have hlt : k < groupSyscall x := lt_of_lt_of_le hkg (hk2 x hx)
              simpa using ne_of_gt hlt
          rw [hfil]
          simp
        · have hcount := IH.2.2 p hp
          have hp1 : p.1 ≠ k := by
            have hlt : k < p.1 := hklt p.1 (List.mem_map_of_mem Prod.fst hp)
            exact ne_of_gt hlt
          rw [if_neg hp1, hcount, List.filter_cons]
          by_cases hpg : p.1 = groupSyscall g
          · have hbeq : (groupSyscall g == p.1) = true := by
              rw [hpg, beq_self_eq_true]
            simp [hbeq, hpg]
          · have hbeq : (groupSyscall g == p.1) = false :=
              beq_eq_false_iff_ne.mpr (fun he => hpg he.symm)
            simp [hbeq, hpg]

theorem syscallRunCounts_spec (l : List CountGroup) (hs : List.Sorted syscallLe l) :
    ((syscallRunCounts l).map Prod.fst).Nodup ∧
    (∀ s, s ∈ (syscallRunCounts l).map Prod.fst ↔ s ∈ l.map groupSyscall) ∧
    (∀ p ∈ syscallRunCounts l,
      p.2 = ((l.filter (fun x => groupSyscall x == p.1)).map groupCount).sum) := by
  cases l with
  | nil =>
    refine ⟨by simp [syscallRunCounts], fun s => by simp [syscallRunCounts], ?_⟩
    intro p hp
    simp [syscallRunCounts] at hp
  | cons g rest =>
    have hs' : List.Sorted syscallLe rest := (List.sorted_cons.mp hs).2
    have hhd : ∀ b ∈ rest, syscallLe g b := (List.sorted_cons.mp hs).1
    have hk : ∀ x ∈ rest, groupSyscall g ≤ groupSyscall x := fun x hx => hhd x hx
    have H := groupRuns_spec rest hs' (groupSyscall g) (groupCount g) hk
    simp only [syscallRunCounts]
    refine ⟨H.1, ?_, ?_⟩
    · intro s
      rw [H.2.1 s, List.map_cons, List.mem_cons]
    · intro p hp
      have hc := H.2.2 p hp
      rw [hc, List.filter_cons]
      by_cases hpg : p.1 = groupSyscall g
      · have hbeq : (groupSyscall g == p.1) = true := by
          rw [hpg, beq_self_eq_true]
        simp [hbeq, hpg]
      · have hbeq : (groupSyscall g == p.1) = false :=
          beq_eq_false_iff_ne.mpr (fun he => hpg he.symm)
        simp [hbeq, hpg]

/-- `ViolationReporter.get_syscall_count` (violation_collector.py:284-289):
sort the groups by syscall, group consecutive equal syscalls and sum their
counts, then sort the `(syscall, count)` pairs ascending by count. -/
def get_syscall_count (violations : List CountGroup) : List (String × Nat) :=
  List.insertionSort countAscPair
    (syscallRunCounts (List.insertionSort syscallLe violations))

theorem get_syscall_count_spec (vs : List CountGroup) :
    ((get_syscall_count vs).map Prod.fst).Nodup ∧
    (∀ s, s ∈ (get_syscall_count vs).map Prod.fst ↔ s ∈ vs.map groupSyscall) ∧
    (∀ p ∈ get_syscall_count vs,
      p.2 = ((vs.filter (fun x => groupSyscall x == p.1)).map groupCount).sum) ∧
    List.Sorted countAscPair (get_syscall_count vs) := by
  have hsortperm : List.Perm (List.insertionSort syscallLe vs) vs :=
    List.perm_insertionSort syscallLe vs
  have hruns := syscallRunCounts_spec (List.insertionSort syscallLe vs)
    (List.sorted_insertionSort syscallLe vs)
  have hperm : List.Perm (get_syscall_count vs)
      (syscallRunCounts (List.insertionSort syscallLe vs)) :=
    List.perm_insertionSort countAscPair _
  refine ⟨?_, ?_, ?_, List.sorted_insertionSort countAscPair _⟩
  · rw [(hperm.map Prod.fst).nodup_iff]
    exact hruns.1
  · intro s
    rw [(hperm.map Prod.fst).mem_iff, hruns.2.1 s, (hsortperm.map groupSyscall).mem_iff]
  · intro p hp
    rw [hperm.mem_iff] at hp
    rw [hruns.2.2 p hp]
    exact List.Perm.sum_eq ((hsortperm.filter _).map groupCount)

/-- The 72-character separator `"=" * 72` (violation_collector.py:295). -/
def eqSep : String := String.mk (List.replicate 72 '=')

/-- The success message written for an empty store
(violation_collector.py:298); the trailing `\n` is part of the message
itself (`writeln` appends another newline). -/
def noViolationsMsg : String := "No unit test violations! \\o/\n"

/-- One per-syscall total line `"%s\t%s" % (syscall, count)`
(violation_collector.py:304). -/
def syscallLine (p : String × Nat) : String := p.1 ++ "\t" ++ toString p.2

/-- One per-(test, syscall) breakdown line
`"%s.%s\t%s\t%s" % (class_name, test_method, syscall, count)`
(violation_collector.py:309). -/
def breakdownLine (g : CountGroup) : String :=
  g.1 ++ "." ++ g.2.1 ++ "\t" ++ g.2.2.1 ++ "\t" ++ toString g.2.2.2

/-- `ViolationReporter.report` (violation_collector.py:291-309), modelled as
the list of messages passed to `writeln`, in order (the stream is set and
every call's verbosity passes the `verbosity <= output_verbosity` check,
so each message becomes output). -/
def report_lines (violations : List CountGroup) : List String :=
  ["", eqSep] ++
    (if violations.length = 0 then [noViolationsMsg]
     else ["VIOLATIONS:", ""] ++
       (get_syscall_count violations).map syscallLine ++
       [""] ++ violations.map breakdownLine)

/-- C9 counterexample: on an empty store `report()` does not write exactly
one line — it makes three `writeln` calls: a blank line, the 72-character
`=` separator, and only then the success message. -/
theorem c9_counterexample :
    report_lines [] ≠ [noViolationsMsg] ∧ (report_lines []).length = 3 := by
  constructor
  · decide
  · rfl

/-- C9 (amended): on an empty store `report()` writes exactly three
messages — a blank line, the 72-character `=` separator and the
"no violations" success message — and nothing else. -/
theorem c9_empty_report_lines :
    report_lines [] = ["", eqSep, noViolationsMsg] := rfl

/-- C8: when the store's counts are non-empty, `report()` writes the header
lines, then one per-syscall total line per distinct syscall — each count
the sum of the counts of all groups with that syscall, ordered ascending
by summed count — then a separator blank line, then one per-(test,
syscall) breakdown line for every group in exactly the order
`violation_counts()` returned them. -/
theorem c8_report_nonempty (vs : List CountGroup) (hne : vs ≠ []) :
    report_lines vs =
      ["", eqSep, "VIOLATIONS:", ""] ++ (get_syscall_count vs).map syscallLine ++
        [""] ++ vs.map breakdownLine ∧
    ((get_syscall_count vs).map Prod.fst).Nodup ∧
    (∀ s, s ∈ (get_syscall_count vs).map Prod.fst ↔ s ∈ vs.map groupSyscall) ∧
    (∀ p ∈ get_syscall_count vs,
      p.2 = ((vs.filter (fun x => groupSyscall x == p.1)).map groupCount).sum) ∧
    List.Sorted countAscPair (get_syscall_count vs) := by
  have hspec := get_syscall_count_spec vs
  refine ⟨?_, hspec.1, hspec.2.1, hspec.2.2.1, hspec.2.2.2⟩
  unfold report_lines
  rw [if_neg (by simpa using hne)]
  simp

def exGroups : List CountGroup :=
  [("TestA", "test_x", "open", 2), ("TestB", "test_y", "open", 1),
   ("TestB", "test_y", "read", 5)]

/-- C8 witness: on a concrete non-empty count list the per-syscall names
are distinct and the "open" total is the sum (3) of the two "open"
groups. -/
theorem c8_witness :
    ((get_syscall_count exGroups).map Prod.fst).Nodup ∧
    (("open", 3) : String × Nat).2 =
      ((exGroups.filter (fun x => groupSyscall x == ("open", 3).1)).map groupCount).sum :=
  ⟨(c8_report_nonempty exGroups (by decide)).2.1,
   (c8_report_nonempty exGroups (by decide)).2.2.2.1 ("open", 3) (by decide)⟩

/-- The collector state touched by the `collect` callback: the channel read
side, the in-memory `violations` map (`defaultdict(list)` keyed by
violator, violation_collector.py:193) and the sequence of record dicts
forwarded to the store. -/
structure CollectState where
  chan : ChanState
  violationsMap : List String → List (String × String)
  storeRecords : List (List (String × Val))

/-- The `collect` callback (violation_collector.py:87-99): recover the
current violator, append the `(operation, resolved_path)` event to the
in-memory `violations` map under that violator, then call
`report_violation`.  The surrounding `try/except` swallows every
exception: if `get_violator` raises, the append and the report never
happen (the bytes read from the pipe are consumed regardless); if
`report_violation` raises (`ValueError` unpacking a malformed violator)
the append has already happened.  The `path` argument is unused by the
source. -/
def collect (operation path resolved_path : String) (now : Nat)
    (s : CollectState) : CollectState :=
  match get_violator s.chan with
  | (some violator, chan2) =>
    let violation := (operation, resolved_path)
    let vmap := fun k =>
      if k = violator then s.violationsMap k ++ [violation] else s.violationsMap k
    match report_violation violator violation now with
    | .forwarded record => ⟨chan2, vmap, s.storeRecords ++ [record]⟩
    | _ => ⟨chan2, vmap, s.storeRecords⟩
  | (none, chan2) => ⟨chan2, s.violationsMap, s.storeRecords⟩

/-- C10: every `collect` call that recovers a violator appends the event
`(operation, resolved_path)` under that violator in the in-memory
violations map before `report_violation` filters anything, so an event
attributed to `UNDEFINED_VIOLATOR` — though never forwarded to the store —
is still recorded in the collector's in-memory map. -/
theorem c10_collect_appends_before_filter (operation path resolved_path : String)
    (now : Nat) (s : CollectState) (violator : List String) (chan2 : ChanState)
    (h : get_violator s.chan = (some violator, chan2)) :
    ((collect operation path resolved_path now s).violationsMap violator =
      s.violationsMap violator ++ [(operation, resolved_path)]) ∧
    (violator = UNDEFINED_VIOLATOR →
      (collect operation path resolved_path now s).storeRecords = s.storeRecords) := by
  unfold collect
  rw [h]
  constructor
  · cases hr : report_violation violator (operation, resolved_path) now <;> simp [hr]
  · intro hu
    subst hu
    dsimp only
    rw [show report_violation UNDEFINED_VIOLATOR (operation, resolved_path) now =
        ReportResult.ignored from by unfold report_violation; rw [if_pos rfl]]

/-- C10 witness: with an empty channel (cache still `UNDEFINED_VIOLATOR`), a
collect call records the event in the in-memory map under
`UNDEFINED_VIOLATOR` yet forwards nothing to the store. -/
theorem c10_witness :
    ((collect "open" "/etc/passwd" "/etc/passwd" 0
        ⟨⟨[], UNDEFINED_VIOLATOR⟩, fun _ => [], []⟩).violationsMap UNDEFINED_VIOLATOR =
      [("open", "/etc/passwd")]) ∧
    ((collect "open" "/etc/passwd" "/etc/passwd" 0
        ⟨⟨[], UNDEFINED_VIOLATOR⟩, fun _ => [], []⟩).storeRecords = []) := by
  have h := c10_collect_appends_before_filter "open" "/etc/passwd" "/etc/passwd" 0
    ⟨⟨[], UNDEFINED_VIOLATOR⟩, fun _ => [], []⟩ UNDEFINED_VIOLATOR
    ⟨[], UNDEFINED_VIOLATOR⟩ rfl
  exact ⟨h.1, h.2 rfl⟩

/-- C3 (code behaviour at the claim's failing input): when the bytes read
from the channel contain no complete `#END#`-terminated record — here a
single oversized record whose first 1024 bytes are all `'A'` —
`data.split("#END#")` yields a single segment, so the `[-2]` indexing in
`_get_last_violator` raises `IndexError`, which propagates out of
`get_violator` (modelled as the `none` result) instead of `get_violator`
returning the previously cached violator as the spec requires. -/
theorem c3_oversized_record_raises :
    get_violator ⟨List.replicate 1024 'A', UNDEFINED_VIOLATOR⟩ =
      (none, ⟨[], UNDEFINED_VIOLATOR⟩) := by
  have hne : (List.replicate 1024 'A' : List Char) ≠ [] := by
    intro hcon
    have hlen := congrArg List.length hcon
    simp at hlen
  have hnomem : '#' ∉ (List.replicate 1024 'A' : List Char) := by
    intro hm
    have heq := List.eq_of_mem_replicate hm
    exact absurd heq (by decide)
  have htake : (List.replicate 1024 'A' : List Char).take MAX_VIOLATOR_LINE =
      List.replicate 1024 'A' :=
    List.take_of_length_le (by simp [MAX_VIOLATOR_LINE])
  have hdrop : (List.replicate 1024 'A' : List Char).drop MAX_VIOLATOR_LINE = [] :=
    List.drop_eq_nil_of_le (by simp [MAX_VIOLATOR_LINE])
  have hglv : get_last_violator (List.replicate 1024 'A') = none := by
    unfold get_last_violator
    rw [pySplit_no_sep VIOLATOR_DESC_END '#' rfl [] _ hnomem]
    rfl
  unfold get_violator
  dsimp only
  rw [htake, hdrop]
  rw [if_neg hne, if_neg hne]
  rw [hglv]
